import Mathlib

/-!
Verification of the co-citation-assist citation-graph engine.

This file gives a shallow embedding of the core algorithmic parts of the
repository:

* `CCA.Net`  — the network generator (`network_generator.py`): candidate
  identifier extraction, `max_nodes` truncation, sorted node-id assignment,
  and pairwise link generation for the three linking modes (bibliographic
  coupling, co-citation, Amsler).
* `CCA.Merge` — the composite-API merge with contribution statistics
  (`apis/composite.py`).
* `CCA.Ana`  — the analyzer (`analyzer.py`): constructor validation and the
  single-pass backward/forward novelty analysis, with external fetching
  modelled as an oracle.

Python values that can be `None` are modelled with `Option`; the three
possible states of the per-identifier direction fields of the raw data map
(key absent / key present with `null` value / key present with a list) are
modelled by `RawField`.  Operations that raise `TypeError` in Python are
modelled in `Except Unit`.  Python sets whose iteration order matters are
modelled as deduplicated lists in a fixed deterministic order (the order is
arbitrary in the source, so every order-sensitive claim is stated up to the
choice).
-/

namespace CCA

/-- One direction field (`'references'` or `'citations'`) of an entry of the
raw citations-data map: the key may be absent, present with a `null` value
(failed fetch), or present with a list of identifiers. -/
inductive RawField where
  | absent : RawField
  | null : RawField
  | val : List String → RawField
deriving DecidableEq, Repr

/-- One value of the raw citations-data map. -/
structure RawRecord where
  references : RawField
  citations : RawField
deriving DecidableEq, Repr

/-- The raw citations-data map (a Python dict, i.e. an insertion-ordered
association list with distinct keys). -/
abbrev RawData := List (String × RawRecord)

/-- The keys of the raw data map, in insertion order. -/
def keysOf (d : RawData) : List String := d.map Prod.fst

/-- No direction field of the map holds a `null` value. -/
def WellFormed (d : RawData) : Prop :=
  ∀ kv ∈ d, kv.2.references ≠ RawField.null ∧ kv.2.citations ≠ RawField.null

instance (d : RawData) : Decidable (WellFormed d) := by
  unfold WellFormed; infer_instance

instance {e a : Type} [DecidableEq e] [DecidableEq a] : DecidableEq (Except e a) :=
  fun x y =>
  match x, y with
  | Except.ok u, Except.ok v =>
    if h : u = v then isTrue (by rw [h]) else isFalse (by intro hc; cases hc; exact h rfl)
  | Except.error u, Except.error v =>
    if h : u = v then isTrue (by rw [h]) else isFalse (by intro hc; cases hc; exact h rfl)
  | Except.ok _, Except.error _ => isFalse (by intro hc; cases hc)
  | Except.error _, Except.ok _ => isFalse (by intro hc; cases hc)

namespace Net

/-- The three linking modes of `network_generator.py`. -/
inductive LinkingMode where
  | bibliographicCoupling : LinkingMode
  | coCitation : LinkingMode
  | amsler : LinkingMode
deriving DecidableEq, Repr

/-- A link of the generated network (`NetworkLink`): two integer node ids
and a strength. -/
structure Link where
  source_id : ℕ
  target_id : ℕ
  strength : ℚ
deriving DecidableEq, Repr

/-- The entries of the raw data whose `'references'` key is present with a
list, paired with that list as a set (`paper_references` of
`_generate_bibliographic_coupling_links` / `_generate_amsler_links`). -/
def refEntries (d : RawData) : List (String × Finset String) :=
  d.filterMap fun kv =>
    match kv.2.references with
    | RawField.val l => some (kv.1, l.toFinset)
    | _ => none

/-- The entries of the raw data whose `'citations'` key is present with a
list, as sets (`paper_citations` of `_generate_amsler_links`, and of
`_generate_co_citation_links` with `include_cociting_nodes`). -/
def citeEntries (d : RawData) : List (String × Finset String) :=
  d.filterMap fun kv =>
    match kv.2.citations with
    | RawField.val l => some (kv.1, l.toFinset)
    | _ => none

/-- Whether reading every `'references'` value of the map as a set succeeds
(`set(data['references'])` raises `TypeError` on a `null` value). -/
def refsOk (d : RawData) : Bool :=
  d.all fun kv => kv.2.references ≠ RawField.null

/-- Whether reading every `'citations'` value of the map as a set succeeds. -/
def citesOk (d : RawData) : Bool :=
  d.all fun kv => kv.2.citations ≠ RawField.null

/-- All identifiers occurring in the `'references'` lists, in order. -/
def refMentions (d : RawData) : List String :=
  (d.map fun kv =>
    match kv.2.references with
    | RawField.val l => l
    | _ => []).flatten

/-- All identifiers occurring in the `'citations'` lists, in order. -/
def citeMentions (d : RawData) : List String :=
  (d.map fun kv =>
    match kv.2.citations with
    | RawField.val l => l
    | _ => []).flatten

/-- The candidate identifier set, as a deduplicated list: all keys, all
referenced identifiers, and — only when `include_cociting_nodes` is set —
all citing identifiers. -/
def candidateList (d : RawData) (includeCociting : Bool) : List String :=
  (keysOf d ++ refMentions d ++
    (if includeCociting then citeMentions d else [])).dedup

/-- `_extract_all_identifiers`: returns the candidate set; errors when a
scanned direction value is `null` (`set.update(None)` raises
`TypeError`). -/
def extractAllIdentifiers (d : RawData) (includeCociting : Bool) :
    Except Unit (List String) :=
  if refsOk d ∧ (includeCociting → citesOk d) then
    Except.ok (Net.candidateList d includeCociting)
  else
    Except.error ()

/-- The `max_nodes` truncation step of `generate_network`: when `max_nodes`
is set (and nonzero — `if max_nodes and ...`) and the candidate set exceeds
it, keep all keys of the raw data and fill the remaining capacity with other
identifiers in a deterministic order; if the keys alone reach the limit,
keep only the first `max_nodes` keys. -/
def truncateIds (d : RawData) (maxNodes : Option ℕ) (ids : List String) :
    List String :=
  match maxNodes with
  | none => ids
  | some n =>
    if n ≠ 0 ∧ n < ids.length then
      let seeds := keysOf d
      if seeds.length < n then
        seeds ++ (ids.filter fun x => x ∉ seeds).take (n - seeds.length)
      else
        seeds.take n
    else ids

/-- Lexicographic comparison of character lists by code point (the order
Python's `sorted` uses on strings). -/
def charListLe : List Char → List Char → Bool
  | [], _ => true
  | _ :: _, [] => false
  | c :: cs, e :: es => if c < e then true else if e < c then false else charListLe cs es

/-- Lexicographic comparison of strings by code point. -/
def strLeb (a b : String) : Bool := charListLe a.data b.data

/-- Insertion into a sorted list under `strLeb`. -/
def insertSorted (x : String) : List String → List String
  | [] => [x]
  | y :: ys => if strLeb x y then x :: y :: ys else y :: insertSorted x ys

/-- `_create_node_mappings`: the candidate identifiers sorted
lexicographically and numbered from zero. -/
def sortedIds (ids : List String) : List String :=
  ids.foldr insertSorted []

/-- The node id of an identifier: its index in the sorted candidate list,
or `none` when it is not in the node set. -/
def nodeId (ids : List String) (x : String) : Option ℕ :=
  if x ∈ sortedIds ids then some ((sortedIds ids).indexOf x) else none

/-- All index pairs `(l[i], l[j])` with `i < j`, in the double-loop order of
the pairwise scans. -/
def listPairs : List α → List (α × α)
  | [] => []
  | x :: xs => (xs.map fun y => (x, y)) ++ listPairs xs

/-- Lookup of a paper's stored set, defaulting to the empty set
(`paper_references.get(paper, set())`). -/
def lookupSet (l : List (String × Finset String)) (p : String) : Finset String :=
  ((l.find? fun kv => kv.1 = p).map Prod.snd).getD ∅

/-- The body of the pairwise loops: skip the pair unless both papers are in
the node mapping, compute the strength, and emit a link when it reaches
`min_strength`. -/
def mkLink (ids : List String) (st : String → String → ℚ) (minStrength : ℚ)
    (pq : String × String) : Option Link :=
  match nodeId ids pq.1, nodeId ids pq.2 with
  | some a, some b =>
      if minStrength ≤ st pq.1 pq.2 then some ⟨a, b, st pq.1 pq.2⟩ else none
  | _, _ => none

/-- `_generate_bibliographic_coupling_links`: strength is the size of the
intersection of the full reference sets; errors on a `null` references
value. -/
def bcLinks (d : RawData) (ids : List String) (minStrength : ℤ) :
    Except Unit (List Link) :=
  if refsOk d then
    let pr := refEntries d
    let st := fun p q => ((lookupSet pr p ∩ lookupSet pr q).card : ℚ)
    Except.ok ((listPairs (pr.map Prod.fst)).filterMap
      (mkLink ids st (minStrength : ℚ)))
  else Except.error ()

/-- The citation sets used by `_generate_co_citation_links`: the full sets
when `include_cociting_nodes` is set, otherwise each set restricted to the
node set. -/
def ccEntries (d : RawData) (ids : List String) (includeCociting : Bool) :
    List (String × Finset String) :=
  if includeCociting then citeEntries d
  else (citeEntries d).map fun kv => (kv.1, kv.2 ∩ ids.toFinset)

/-- `_generate_co_citation_links`: strength is the size of the intersection
of the (possibly node-set-restricted) citation sets; errors on a `null`
citations value. -/
def ccLinks (d : RawData) (ids : List String) (minStrength : ℤ)
    (includeCociting : Bool) : Except Unit (List Link) :=
  if citesOk d then
    let pc := ccEntries d ids includeCociting
    let st := fun p q => ((lookupSet pc p ∩ lookupSet pc q).card : ℚ)
    Except.ok ((listPairs (pc.map Prod.fst)).filterMap
      (mkLink ids st (minStrength : ℚ)))
  else Except.error ()

/-- The paper list of `_generate_amsler_links`: the union of the papers with
a references entry and those with a citations entry (a deterministic
rendering of `list(set(...) | set(...))`). -/
def amslerIds (d : RawData) : List String :=
  (refEntries d).map Prod.fst ++
    (((citeEntries d).map Prod.fst).filter fun k =>
      k ∉ (refEntries d).map Prod.fst)

/-- `_generate_amsler_links`: strength is
`λ · |refs₁ ∩ refs₂| + (1 − λ) · |cites₁ ∩ cites₂|` over the full reference
and citation sets; errors on a `null` value in either direction. -/
def amslerLinks (d : RawData) (ids : List String) (minStrength : ℤ)
    (lam : ℚ) : Except Unit (List Link) :=
  if refsOk d ∧ citesOk d then
    let pr := refEntries d
    let pc := citeEntries d
    let st := fun p q =>
      lam * ((lookupSet pr p ∩ lookupSet pr q).card : ℚ) +
        (1 - lam) * ((lookupSet pc p ∩ lookupSet pc q).card : ℚ)
    Except.ok ((listPairs (amslerIds d)).filterMap
      (mkLink ids st (minStrength : ℚ)))
  else Except.error ()

/-- The link-producing part of `generate_network`: extract the candidate
identifiers, apply the `max_nodes` truncation, assign node ids over the
result, and run the selected mode's pairwise scan. -/
def generateNetworkLinks (d : RawData) (mode : LinkingMode) (minStrength : ℤ)
    (maxNodes : Option ℕ) (includeCociting : Bool) (lam : ℚ) :
    Except Unit (List Link) := do
  let allIds ← extractAllIdentifiers d includeCociting
  let ids := truncateIds d maxNodes allIds
  match mode with
  | LinkingMode.bibliographicCoupling => bcLinks d ids minStrength
  | LinkingMode.coCitation => ccLinks d ids minStrength includeCociting
  | LinkingMode.amsler => amslerLinks d ids minStrength lam

end Net

namespace Merge

/-- The per-provider contribution statistics of
`CompositeAPI.get_references_with_stats` / `get_citations_with_stats`. -/
structure ContributionStats where
  openAlex : ℕ
  semanticScholar : ℕ
  overlap : ℕ
  openAlexUnique : ℕ
  semanticScholarUnique : ℕ
  totalUnique : ℕ
deriving DecidableEq, Repr

/-- The merge-with-statistics operation of `apis/composite.py`
(`get_references_with_stats` / `get_citations_with_stats`): deduplicate the
two providers' result lists, return their union together with the
per-provider counts, the overlap count, the per-provider unique counts and
the total unique count.  The returned list is a set projected to a sequence;
its order is arbitrary in the source and rendered here as the deduplicated
concatenation. -/
def mergeWithStats (openAlexResults semanticScholarResults : List String) :
    List String × ContributionStats :=
  let oset := openAlexResults.toFinset
  let sset := semanticScholarResults.toFinset
  ((openAlexResults ++ semanticScholarResults).dedup,
   { openAlex := oset.card
     semanticScholar := sset.card
     overlap := (oset ∩ sset).card
     openAlexUnique := (oset \ sset).card
     semanticScholarUnique := (sset \ oset).card
     totalUnique := (oset ∪ sset).card })

end Merge

namespace Ana

/-- A Python value passed to the `CocitationAnalyzer` constructor, as far as
the constructor's `isinstance` checks observe it. -/
inductive PyVal where
  | pySet : Finset String → PyVal
  | pyList : List String → PyVal
  | pyNone : PyVal
  | pyOther : PyVal
deriving DecidableEq

/-- `CocitationAnalyzer.__init__`: `initial_dois` must be a set, and
`initial_mag_ids` must be a set when it is not `None`; on success the
analyzer's combined working identifier set is the union (with a missing
`initial_mag_ids` treated as the empty set). -/
def analyzerInit (initialDois : PyVal) (initialMagIds : PyVal) :
    Except String (Finset String) :=
  match initialDois with
  | PyVal.pySet ds =>
    match initialMagIds with
    | PyVal.pyNone => Except.ok (ds ∪ ∅)
    | PyVal.pySet ms => Except.ok (ds ∪ ms)
    | _ => Except.error "initial_mag_ids must be a set"
  | _ => Except.error "initial_dois must be a set"

/-- The outcome of one provider fetch direction for one identifier: `none`
models an exception from the API client, `some l` a returned list. -/
structure FetchResult where
  refs : Option (List String)
  cites : Option (List String)

/-- `_fetch_data_for_identifier`: fetch references only when backward
analysis is on and citations only when forward analysis is on; an exception
while fetching references aborts the citations fetch too (both come back
`None`). -/
def fetchPair (oracle : String → FetchResult) (doB doF : Bool) (s : String) :
    Option (List String) × Option (List String) :=
  if doB then
    match (oracle s).refs with
    | none => (none, none)
    | some rs => (some rs, if doF then (oracle s).cites else none)
  else (none, if doF then (oracle s).cites else none)

/-- A backward or forward result record:
`(novel identifier, initial identifier)`. -/
abbrev Rel := String × String

/-- A summary record, reduced to the fields the claims are about:
`(identifier, references_found, citations_found)`. -/
abbrev Summary := String × ℕ × ℕ

/-- The whole observable outcome of `run_analysis`, together with the trace
of identifiers for which a fetch was attempted. -/
structure AnalysisResult where
  summaries : List Summary
  backward : List Rel
  forward : List Rel
  rawData : List (String × (Option (List String) × Option (List String)))
  fetched : List String
deriving Repr

/-- The initial identifiers (in iteration order) that contributed a novelty
tally for `d` in one direction: those whose successfully fetched list for
that direction contains `d` (duplicates inside one list count once). -/
def contributors (fetchedOf : String → Option (List String))
    (seeds : List String) (d : String) : List String :=
  seeds.filter fun s =>
    match fetchedOf s with
    | some l => decide (d ∈ l)
    | none => false

/-- The tallied novel identifiers of one direction, in a deterministic
first-occurrence order: identifiers appearing in some seed's successfully
fetched list and not themselves in the seed set. -/
def novelCandidates (fetchedOf : String → Option (List String))
    (seeds : List String) : List String :=
  ((seeds.map fun s => (fetchedOf s).getD []).flatten.dedup).filter
    fun x => x ∉ seeds

/-- The result records of one direction: for every tallied identifier whose
tally reaches the threshold, one record per contributing seed. -/
def directionResults (fetchedOf : String → Option (List String))
    (seeds : List String) (threshold : ℤ) : List Rel :=
  if 0 < threshold then
    ((novelCandidates fetchedOf seeds).filter fun d =>
      threshold ≤ ((contributors fetchedOf seeds d).length : ℤ)).flatMap
      fun d => (contributors fetchedOf seeds d).map fun s => (d, s)
  else []

/-- `CocitationAnalyzer.run_analysis`: when both thresholds are
non-positive, return all-empty results without fetching; otherwise fetch
per seed (references only when `N > 0`, citations only when `M > 0`),
record summaries and raw data, and compute the backward and forward result
records from the per-direction tallies. -/
def runAnalysis (seeds : List String) (oracle : String → FetchResult)
    (minReferencesN minCitationsM : ℤ) : AnalysisResult :=
  let doB := 0 < minReferencesN
  let doF := 0 < minCitationsM
  if ¬doB ∧ ¬doF then ⟨[], [], [], [], []⟩
  else
    let fr := fun s => (fetchPair oracle doB doF s).1
    let fc := fun s => (fetchPair oracle doB doF s).2
    { summaries := seeds.map fun s =>
        (s, ((fr s).getD []).length, ((fc s).getD []).length)
      backward := directionResults fr seeds minReferencesN
      forward := directionResults fc seeds minCitationsM
      rawData := seeds.map fun s => (s, (fr s, fc s))
      fetched := seeds }

end Ana

/-! ### Helper lemmas about the analyzer -/

namespace Ana

theorem fetchPair_fst (oracle : String → FetchResult) (doB doF : Bool)
    (s : String) :
    (fetchPair oracle doB doF s).1 = if doB then (oracle s).refs else none := by
  unfold fetchPair
  cases doB <;> simp
  cases (oracle s).refs <;> simp

theorem mem_novelCandidates {f : String → Option (List String)}
    {seeds : List String} {d : String} :
    d ∈ novelCandidates f seeds ↔
      (∃ s ∈ seeds, d ∈ (f s).getD []) ∧ d ∉ seeds := by
  unfold novelCandidates
  simp [List.mem_filter, List.mem_dedup, List.mem_flatten]

theorem novelCandidates_not_seed {f : String → Option (List String)}
    {seeds : List String} {d : String} (h : d ∈ novelCandidates f seeds) :
    d ∉ seeds :=
  (mem_novelCandidates.1 h).2

theorem mem_directionResults {f : String → Option (List String)}
    {seeds : List String} {t : ℤ} {r : Rel}
    (h : r ∈ directionResults f seeds t) :
    r.1 ∈ novelCandidates f seeds ∧
      t ≤ ((contributors f seeds r.1).length : ℤ) ∧
      r.2 ∈ contributors f seeds r.1 := by
  unfold directionResults at h
  split at h
  · simp only [List.mem_flatMap, List.mem_filter, List.mem_map] at h
    obtain ⟨d, ⟨hd, hq⟩, s, hs, hr⟩ := h
    cases hr
    simp only [decide_eq_true_eq] at hq
    exact ⟨hd, hq, hs⟩
  · simp at h

/-- One direction's emitted records, restricted to one novel identifier:
the flat-map over the qualifying candidates contributes exactly the group
of that identifier. -/
theorem flatMap_filter_key {α β : Type} [DecidableEq α] (l : List α)
    (hl : l.Nodup) (g : α → List β) (key : β → α)
    (hkey : ∀ a, ∀ b ∈ g a, key b = a) (d : α) :
    (l.flatMap g).filter (fun b => key b = d) = if d ∈ l then g d else [] := by
  induction l with
  | nil => simp
  | cons a l ih =>
    have hal : a ∉ l := (List.nodup_cons.1 hl).1
    have hl2 : l.Nodup := (List.nodup_cons.1 hl).2
    rw [List.flatMap_cons, List.filter_append, ih hl2]
    by_cases had : d = a
    · subst had
      have : (g d).filter (fun b => key b = d) = g d := by
        apply List.filter_eq_self.2
        intro b hb
        simp [hkey d b hb]
      simp [this, hal]
    · have : (g a).filter (fun b => key b = d) = [] := by
        apply List.filter_eq_nil_iff.2
        intro b hb
        simp only [hkey a b hb, decide_eq_true_eq]
        exact fun h => had h.symm
      simp only [this, List.nil_append, List.mem_cons]
      by_cases hdl : d ∈ l <;> simp [hdl, had]

theorem nodup_novelCandidates (f : String → Option (List String))
    (seeds : List String) : (novelCandidates f seeds).Nodup := by
  unfold novelCandidates
  exact (List.nodup_dedup _).filter _

theorem mem_contributors {f : String → Option (List String)}
    {seeds : List String} {d s : String} :
    s ∈ contributors f seeds d ↔ s ∈ seeds ∧ ∃ l, f s = some l ∧ d ∈ l := by
  unfold contributors
  rw [List.mem_filter]
  refine and_congr_right fun _ => ?_
  cases hfs : f s with
  | none => simp
  | some l => simp

theorem directionResults_filter_key (f : String → Option (List String))
    (seeds : List String) (t : ℤ) (ht : 1 ≤ t) (d : String) (hd : d ∉ seeds) :
    (directionResults f seeds t).filter (fun r => r.1 = d) =
      if t ≤ ((contributors f seeds d).length : ℤ) then
        (contributors f seeds d).map (fun s => (d, s)) else [] := by
  have ht0 : (0 : ℤ) < t := ht
  have key := flatMap_filter_key
    ((novelCandidates f seeds).filter fun x =>
      t ≤ ((contributors f seeds x).length : ℤ))
    ((nodup_novelCandidates f seeds).filter _)
    (fun x => (contributors f seeds x).map fun s => (x, s))
    Prod.fst
    (by
      intro a b hb
      simp only [List.mem_map] at hb
      obtain ⟨s, _, rfl⟩ := hb
      rfl)
    d
  unfold directionResults
  rw [if_pos ht0, key]
  by_cases hq : t ≤ ((contributors f seeds d).length : ℤ)
  · rw [if_pos hq, if_pos]
    rw [List.mem_filter]
    refine ⟨?_, by simpa using hq⟩
    have hne : contributors f seeds d ≠ [] := by
      intro h0
      rw [h0] at hq
      simp at hq
      omega
    obtain ⟨s, hs⟩ := List.exists_mem_of_ne_nil _ hne
    obtain ⟨hseed, l, hfl, hdl⟩ := mem_contributors.1 hs
    refine mem_novelCandidates.2 ⟨⟨s, hseed, ?_⟩, hd⟩
    rw [hfl]
    exact hdl
  · rw [if_neg hq, if_neg]
    rw [List.mem_filter]
    rintro ⟨-, hq2⟩
    exact hq (by simpa using hq2)

theorem runAnalysis_skip {seeds : List String} {oracle : String → FetchResult}
    {n m : ℤ} (hn : n ≤ 0) (hm : m ≤ 0) :
    runAnalysis seeds oracle n m =
      { summaries := [], backward := [], forward := [], rawData := [],
        fetched := [] } := by
  unfold runAnalysis
  rw [if_pos ⟨not_lt.2 hn, not_lt.2 hm⟩]

theorem runAnalysis_backward_of_pos (seeds : List String)
    (oracle : String → FetchResult) (n m : ℤ) (h : 0 < n ∨ 0 < m) :
    (runAnalysis seeds oracle n m).backward =
      directionResults
        (fun s => (fetchPair oracle (decide (0 < n)) (decide (0 < m)) s).1)
        seeds n := by
  unfold runAnalysis
  rw [if_neg (by tauto)]

theorem runAnalysis_forward_of_pos (seeds : List String)
    (oracle : String → FetchResult) (n m : ℤ) (h : 0 < n ∨ 0 < m) :
    (runAnalysis seeds oracle n m).forward =
      directionResults
        (fun s => (fetchPair oracle (decide (0 < n)) (decide (0 < m)) s).2)
        seeds m := by
  unfold runAnalysis
  rw [if_neg (by tauto)]

theorem directionResults_subset_of_le {f : String → Option (List String)}
    {seeds : List String} {t t2 : ℤ} (h1 : 0 < t) (h2 : t ≤ t2) :
    ∀ r ∈ directionResults f seeds t2, r ∈ directionResults f seeds t := by
  intro r hr
  obtain ⟨hcand, hq, hcontrib⟩ := mem_directionResults hr
  obtain ⟨d, s⟩ := r
  unfold directionResults
  rw [if_pos h1]
  simp only [List.mem_flatMap, List.mem_filter, List.mem_map,
    decide_eq_true_eq]
  exact ⟨d, ⟨hcand, le_trans h2 hq⟩, s, hcontrib, rfl⟩

end Ana

/-! ### Helper lemmas about the network generator -/

namespace Net

theorem mem_listPairs {α : Type} : ∀ {l : List α} {pq : α × α},
    pq ∈ listPairs l → pq.1 ∈ l ∧ pq.2 ∈ l := by
  intro l
  induction l with
  | nil => intro pq h; simp [listPairs] at h
  | cons a t ih =>
    intro pq h
    simp only [listPairs, List.mem_append, List.mem_map] at h
    rcases h with ⟨y, hy, rfl⟩ | h
    · exact ⟨List.mem_cons_self a t, List.mem_cons_of_mem a hy⟩
    · obtain ⟨h1, h2⟩ := ih h
      exact ⟨List.mem_cons_of_mem a h1, List.mem_cons_of_mem a h2⟩

theorem listPairs_ne {α : Type} : ∀ {l : List α}, l.Nodup →
    ∀ pq ∈ listPairs l, pq.1 ≠ pq.2 := by
  intro l
  induction l with
  | nil => intro _ pq h; simp [listPairs] at h
  | cons a t ih =>
    intro hl pq h
    have hal : a ∉ t := (List.nodup_cons.1 hl).1
    simp only [listPairs, List.mem_append, List.mem_map] at h
    rcases h with ⟨y, hy, rfl⟩ | h
    · exact fun hh => hal ((show a = y from hh) ▸ hy)
    · exact ih (List.nodup_cons.1 hl).2 pq h

theorem listPairs_pairwise {α : Type} : ∀ {l : List α}, l.Nodup →
    (listPairs l).Pairwise fun x y =>
      ¬(x.1 = y.1 ∧ x.2 = y.2) ∧ ¬(x.1 = y.2 ∧ x.2 = y.1) := by
  intro l
  induction l with
  | nil => intro _; simp [listPairs]
  | cons a t ih =>
    intro hl
    have hal : a ∉ t := (List.nodup_cons.1 hl).1
    have ht : t.Nodup := (List.nodup_cons.1 hl).2
    rw [show listPairs (a :: t) = (t.map fun y => (a, y)) ++ listPairs t from rfl,
      List.pairwise_append]
    refine ⟨?_, ih ht, ?_⟩
    · rw [List.pairwise_map]
      refine ht.imp_of_mem ?_
      intro u v hu hv huv
      exact ⟨fun hc => huv (show u = v from hc.2),
        fun hc => hal ((show a = v from hc.1) ▸ hv)⟩
    · intro x hx y hy
      obtain ⟨u, hu, rfl⟩ := List.mem_map.1 hx
      have hy12 := mem_listPairs hy
      exact ⟨fun hc => hal ((show a = y.1 from hc.1) ▸ hy12.1),
        fun hc => hal ((show a = y.2 from hc.1) ▸ hy12.2)⟩

theorem mkLink_eq_some {ids : List String} {st : String → String → ℚ}
    {minS : ℚ} {pq : String × String} {l : Link}
    (h : mkLink ids st minS pq = some l) :
    nodeId ids pq.1 = some l.source_id ∧ nodeId ids pq.2 = some l.target_id := by
  unfold mkLink at h
  cases hp : nodeId ids pq.1 with
  | none => simp [hp] at h
  | some a =>
    cases hq : nodeId ids pq.2 with
    | none => simp [hp, hq] at h
    | some b =>
      simp only [hp, hq] at h
      split at h
      · injection h with h2
        subst h2
        refine ⟨?_, ?_⟩ <;> simp [hp, hq]
      · cases h

theorem nodeId_inj {ids : List String} {p q : String} {a : ℕ}
    (hp : nodeId ids p = some a) (hq : nodeId ids q = some a) : p = q := by
  unfold nodeId at hp hq
  split at hp
  · split at hq
    · rename_i hmp hmq
      injection hp with hp2
      injection hq with hq2
      exact (List.indexOf_inj hmp hmq).1 (hp2.trans hq2.symm)
    · cases hq
  · cases hp

theorem pairScan_no_self {K ids : List String} {st : String → String → ℚ}
    {minS : ℚ} (hK : K.Nodup) :
    ∀ l ∈ (listPairs K).filterMap (mkLink ids st minS),
      l.source_id ≠ l.target_id := by
  intro l hl hst
  obtain ⟨pq, hpq, hml⟩ := List.mem_filterMap.1 hl
  obtain ⟨hp, hq⟩ := mkLink_eq_some hml
  rw [hst] at hp
  exact listPairs_ne hK pq hpq (nodeId_inj hp hq)

theorem pairScan_nodup_pairs {K ids : List String} {st : String → String → ℚ}
    {minS : ℚ} (hK : K.Nodup) :
    (((listPairs K).filterMap (mkLink ids st minS)).map fun l =>
      (min l.source_id l.target_id, max l.source_id l.target_id)).Nodup := by
  have hpw := listPairs_pairwise hK
  rw [List.Nodup, List.pairwise_map]
  refine List.Pairwise.filterMap (mkLink ids st minS) ?_ hpw
  intro pq pq2 hR l hl l2 hl2
  rw [Option.mem_def] at hl hl2
  obtain ⟨hp1, hq1⟩ := mkLink_eq_some hl
  obtain ⟨hp2, hq2⟩ := mkLink_eq_some hl2
  intro heq
  have h1 : min l.source_id l.target_id = min l2.source_id l2.target_id :=
    congrArg Prod.fst heq
  have h2 : max l.source_id l.target_id = max l2.source_id l2.target_id :=
    congrArg Prod.snd heq
  have hcase : (l.source_id = l2.source_id ∧ l.target_id = l2.target_id) ∨
      (l.source_id = l2.target_id ∧ l.target_id = l2.source_id) := by omega
  rcases hcase with ⟨ha, hb⟩ | ⟨ha, hb⟩
  · rw [ha] at hp1
    rw [hb] at hq1
    exact hR.1 ⟨nodeId_inj hp1 hp2, nodeId_inj hq1 hq2⟩
  · rw [ha] at hp1
    rw [hb] at hq1
    exact hR.2 ⟨nodeId_inj hp1 hq2, nodeId_inj hq1 hp2⟩

theorem refEntries_fst_sublist (d : RawData) :
    ((refEntries d).map Prod.fst).Sublist (keysOf d) := by
  induction d with
  | nil => simp [refEntries, keysOf]
  | cons kv t ih =>
    show ((refEntries (kv :: t)).map Prod.fst).Sublist (kv.1 :: keysOf t)
    cases h : kv.2.references with
    | val l =>
      have he : refEntries (kv :: t) = (kv.1, l.toFinset) :: refEntries t := by
        simp [refEntries, h]
      rw [he, List.map_cons]
      exact ih.cons₂ kv.1
    | absent =>
      have he : refEntries (kv :: t) = refEntries t := by
        simp [refEntries, h]
      rw [he]
      exact ih.cons kv.1
    | null =>
      have he : refEntries (kv :: t) = refEntries t := by
        simp [refEntries, h]
      rw [he]
      exact ih.cons kv.1

theorem citeEntries_fst_sublist (d : RawData) :
    ((citeEntries d).map Prod.fst).Sublist (keysOf d) := by
  induction d with
  | nil => simp [citeEntries, keysOf]
  | cons kv t ih =>
    show ((citeEntries (kv :: t)).map Prod.fst).Sublist (kv.1 :: keysOf t)
    cases h : kv.2.citations with
    | val l =>
      have he : citeEntries (kv :: t) = (kv.1, l.toFinset) :: citeEntries t := by
        simp [citeEntries, h]
      rw [he, List.map_cons]
      exact ih.cons₂ kv.1
    | absent =>
      have he : citeEntries (kv :: t) = citeEntries t := by
        simp [citeEntries, h]
      rw [he]
      exact ih.cons kv.1
    | null =>
      have he : citeEntries (kv :: t) = citeEntries t := by
        simp [citeEntries, h]
      rw [he]
      exact ih.cons kv.1

theorem ccEntries_fst (d : RawData) (ids : List String) (ic : Bool) :
    (ccEntries d ids ic).map Prod.fst = (citeEntries d).map Prod.fst := by
  cases ic with
  | true => rfl
  | false =>
    unfold ccEntries
    rw [if_neg (by simp)]
    rw [List.map_map]
    rfl

theorem amslerIds_nodup {d : RawData} (hk : (keysOf d).Nodup) :
    (amslerIds d).Nodup := by
  have hr : ((refEntries d).map Prod.fst).Nodup :=
    hk.sublist (refEntries_fst_sublist d)
  have hc : ((citeEntries d).map Prod.fst).Nodup :=
    hk.sublist (citeEntries_fst_sublist d)
  unfold amslerIds
  rw [List.nodup_append]
  refine ⟨hr, hc.filter _, ?_⟩
  intro x hx hx2
  rw [List.mem_filter] at hx2
  have := hx2.2
  simp only [decide_eq_true_eq] at this
  exact this hx

theorem bcLinks_ok {d : RawData} {ids : List String} {minS : ℤ}
    {links : List Link} (h : bcLinks d ids minS = Except.ok links) :
    links = (listPairs ((refEntries d).map Prod.fst)).filterMap
      (mkLink ids (fun p q =>
        ((lookupSet (refEntries d) p ∩ lookupSet (refEntries d) q).card : ℚ))
        (minS : ℚ)) := by
  unfold bcLinks at h
  split at h
  · injection h with h2
    exact h2.symm
  · cases h

theorem ccLinks_ok {d : RawData} {ids : List String} {minS : ℤ} {ic : Bool}
    {links : List Link} (h : ccLinks d ids minS ic = Except.ok links) :
    links = (listPairs ((ccEntries d ids ic).map Prod.fst)).filterMap
      (mkLink ids (fun p q =>
        ((lookupSet (ccEntries d ids ic) p ∩
          lookupSet (ccEntries d ids ic) q).card : ℚ))
        (minS : ℚ)) := by
  unfold ccLinks at h
  split at h
  · injection h with h2
    exact h2.symm
  · cases h

theorem amslerLinks_ok {d : RawData} {ids : List String} {minS : ℤ} {lam : ℚ}
    {links : List Link} (h : amslerLinks d ids minS lam = Except.ok links) :
    links = (listPairs (amslerIds d)).filterMap
      (mkLink ids (fun p q =>
        lam * ((lookupSet (refEntries d) p ∩ lookupSet (refEntries d) q).card : ℚ) +
          (1 - lam) *
            ((lookupSet (citeEntries d) p ∩ lookupSet (citeEntries d) q).card : ℚ))
        (minS : ℚ)) := by
  unfold amslerLinks at h
  split at h
  · injection h with h2
    exact h2.symm
  · cases h

theorem generateNetworkLinks_ok {d : RawData} {mode : LinkingMode} {minS : ℤ}
    {maxN : Option ℕ} {ic : Bool} {lam : ℚ} {links : List Link}
    (h : generateNetworkLinks d mode minS maxN ic lam = Except.ok links) :
    ∃ ids0, extractAllIdentifiers d ic = Except.ok ids0 ∧
      (match mode with
       | LinkingMode.bibliographicCoupling =>
          bcLinks d (truncateIds d maxN ids0) minS
       | LinkingMode.coCitation =>
          ccLinks d (truncateIds d maxN ids0) minS ic
       | LinkingMode.amsler =>
          amslerLinks d (truncateIds d maxN ids0) minS lam) =
        Except.ok links := by
  unfold generateNetworkLinks at h
  cases hex : extractAllIdentifiers d ic with
  | error e => rw [hex] at h; cases h
  | ok ids0 =>
    rw [hex] at h
    exact ⟨ids0, rfl, h⟩

/-- A link normalized to an undirected weighted triple: the two endpoint
node ids in increasing order, with the strength. -/
def normLink (l : Link) : ℕ × ℕ × ℚ :=
  (min l.source_id l.target_id, max l.source_id l.target_id, l.strength)

/-- The outcome of a link computation as a multiset of undirected weighted
triples (the order of the emitted link list is arbitrary in the source). -/
def normTriples (e : Except Unit (List Link)) :
    Except Unit (Multiset (ℕ × ℕ × ℚ)) :=
  e.map fun ls => (ls.map normLink : Multiset (ℕ × ℕ × ℚ))

theorem refsOk_of_wf {d : RawData} (h : WellFormed d) : refsOk d = true := by
  rw [refsOk, List.all_eq_true]
  intro kv hkv
  simpa using (h kv hkv).1

theorem citesOk_of_wf {d : RawData} (h : WellFormed d) : citesOk d = true := by
  rw [citesOk, List.all_eq_true]
  intro kv hkv
  simpa using (h kv hkv).2

theorem extract_ok_of_wf {d : RawData} (ic : Bool) (h : WellFormed d) :
    extractAllIdentifiers d ic = Except.ok (Net.candidateList d ic) := by
  unfold extractAllIdentifiers
  rw [if_pos ⟨refsOk_of_wf h, fun _ => citesOk_of_wf h⟩]

theorem bcLinks_of_wf {d : RawData} (h : WellFormed d) (ids : List String)
    (minS : ℤ) :
    bcLinks d ids minS = Except.ok
      ((listPairs ((refEntries d).map Prod.fst)).filterMap
        (mkLink ids (fun p q =>
          ((lookupSet (refEntries d) p ∩ lookupSet (refEntries d) q).card : ℚ))
          (minS : ℚ))) := by
  unfold bcLinks
  rw [if_pos (refsOk_of_wf h)]

theorem ccLinks_of_wf {d : RawData} (h : WellFormed d) (ids : List String)
    (minS : ℤ) (ic : Bool) :
    ccLinks d ids minS ic = Except.ok
      ((listPairs ((ccEntries d ids ic).map Prod.fst)).filterMap
        (mkLink ids (fun p q =>
          ((lookupSet (ccEntries d ids ic) p ∩
            lookupSet (ccEntries d ids ic) q).card : ℚ))
          (minS : ℚ))) := by
  unfold ccLinks
  rw [if_pos (citesOk_of_wf h)]

theorem amslerLinks_of_wf {d : RawData} (h : WellFormed d) (ids : List String)
    (minS : ℤ) (lam : ℚ) :
    amslerLinks d ids minS lam = Except.ok
      ((listPairs (amslerIds d)).filterMap
        (mkLink ids (fun p q =>
          lam * ((lookupSet (refEntries d) p ∩
            lookupSet (refEntries d) q).card : ℚ) +
          (1 - lam) * ((lookupSet (citeEntries d) p ∩
            lookupSet (citeEntries d) q).card : ℚ))
          (minS : ℚ))) := by
  unfold amslerLinks
  rw [if_pos ⟨refsOk_of_wf h, citesOk_of_wf h⟩]

theorem truncateIds_none (d : RawData) (ids : List String) :
    truncateIds d none ids = ids := rfl

theorem generateNetworkLinks_bc_of_wf {d : RawData} (h : WellFormed d)
    (minS : ℤ) (ic : Bool) (lam : ℚ) :
    generateNetworkLinks d LinkingMode.bibliographicCoupling minS none ic lam =
      bcLinks d (Net.candidateList d ic) minS := by
  unfold generateNetworkLinks
  rw [extract_ok_of_wf ic h]
  rfl

theorem generateNetworkLinks_cc_of_wf {d : RawData} (h : WellFormed d)
    (minS : ℤ) (ic : Bool) (lam : ℚ) :
    generateNetworkLinks d LinkingMode.coCitation minS none ic lam =
      ccLinks d (Net.candidateList d ic) minS ic := by
  unfold generateNetworkLinks
  rw [extract_ok_of_wf ic h]
  rfl

theorem generateNetworkLinks_amsler_of_wf {d : RawData} (h : WellFormed d)
    (minS : ℤ) (ic : Bool) (lam : ℚ) :
    generateNetworkLinks d LinkingMode.amsler minS none ic lam =
      amslerLinks d (Net.candidateList d ic) minS lam := by
  unfold generateNetworkLinks
  rw [extract_ok_of_wf ic h]
  rfl

theorem lookupSet_eq_empty {l : List (String × Finset String)} {p : String}
    (h : p ∉ l.map Prod.fst) : lookupSet l p = ∅ := by
  unfold lookupSet
  have hfind : (l.find? fun kv => kv.1 = p) = none := by
    rw [List.find?_eq_none]
    intro kv hkv
    simp only [decide_eq_true_eq]
    intro he
    exact h (List.mem_map.2 ⟨kv, hkv, he⟩)
  rw [hfind]
  rfl

theorem mkLink_eq_none_of_lt {ids : List String} {st : String → String → ℚ}
    {minS : ℚ} {pq : String × String} (h : st pq.1 pq.2 < minS) :
    mkLink ids st minS pq = none := by
  unfold mkLink
  cases nodeId ids pq.1 with
  | none => rfl
  | some a =>
    cases nodeId ids pq.2 with
    | none => rfl
    | some b =>
      show (if minS ≤ st pq.1 pq.2 then
        some (⟨a, b, st pq.1 pq.2⟩ : Link) else none) = none
      rw [if_neg (not_le.2 h)]

theorem mkLink_norm_symm {ids : List String} {st : String → String → ℚ}
    {minS : ℚ} (hst : ∀ p q, st p q = st q p) (p q : String) :
    (mkLink ids st minS (p, q)).map normLink =
      (mkLink ids st minS (q, p)).map normLink := by
  unfold mkLink
  cases hp : nodeId ids p with
  | none =>
    cases hq : nodeId ids q with
    | none => rfl
    | some b => rfl
  | some a =>
    cases hq : nodeId ids q with
    | none => rfl
    | some b =>
      show ((if minS ≤ st p q then
          some (⟨a, b, st p q⟩ : Link) else none).map normLink) =
        ((if minS ≤ st q p then
          some (⟨b, a, st q p⟩ : Link) else none).map normLink)
      rw [hst q p]
      split
      · show some (normLink ⟨a, b, st p q⟩) = some (normLink ⟨b, a, st p q⟩)
        unfold normLink
        rw [Nat.min_comm, Nat.max_comm]
      · rfl

/-- The pairwise scan, filtered through a pair-symmetric link producer, is
invariant (as a multiset) under permutation of the scanned paper list. -/
theorem filterMap_listPairs_perm {α β : Type} {g : α × α → Option β}
    (hsym : ∀ p q, g (p, q) = g (q, p)) :
    ∀ {l₁ l₂ : List α}, l₁.Perm l₂ →
      ((listPairs l₁).filterMap g).Perm ((listPairs l₂).filterMap g) := by
  intro l₁ l₂ hp
  induction hp with
  | nil => exact List.Perm.refl _
  | cons x h ih =>
    simp only [listPairs, List.filterMap_append, List.filterMap_map]
    exact (h.filterMap _).append ih
  | swap x y l =>
    simp only [listPairs, List.map_cons, List.cons_append,
      List.filterMap_append, List.filterMap_cons, List.filterMap_map]
    rw [hsym y x]
    cases g (x, y) with
    | none =>
      rw [← List.append_assoc, ← List.append_assoc]
      exact (List.perm_append_comm).append_right _
    | some b =>
      refine List.Perm.cons b ?_
      rw [← List.append_assoc, ← List.append_assoc]
      exact (List.perm_append_comm).append_right _
  | trans h₁ h₂ ih₁ ih₂ => exact ih₁.trans ih₂

/-- Appending papers whose every pair is rejected does not change the
emitted links of the pairwise scan. -/
theorem filterMap_listPairs_append {α β : Type} (g : α × α → Option β)
    (A B : List α) (hB : ∀ pq : α × α, pq.1 ∈ B ∨ pq.2 ∈ B → g pq = none) :
    (listPairs (A ++ B)).filterMap g = (listPairs A).filterMap g := by
  induction A with
  | nil =>
    simp only [List.nil_append]
    rw [show listPairs ([] : List α) = [] from rfl]
    apply List.filterMap_eq_nil_iff.2
    intro pq hpq
    exact hB pq (Or.inl (mem_listPairs hpq).1)
  | cons a A ih =>
    show ((((A ++ B).map fun y => (a, y)) ++
      listPairs (A ++ B)).filterMap g) = _
    rw [List.filterMap_append, ih]
    show _ = ((A.map fun y => (a, y)) ++ listPairs A).filterMap g
    rw [List.filterMap_append]
    congr 1
    rw [List.map_append, List.filterMap_append]
    have hnil : (B.map fun y => (a, y)).filterMap g = [] := by
      apply List.filterMap_eq_nil_iff.2
      intro pq hpq
      obtain ⟨y, hy, rfl⟩ := List.mem_map.1 hpq
      exact hB _ (Or.inr hy)
    rw [hnil, List.append_nil]

theorem extractAllIdentifiers_ok_nodup {d : RawData} {ic : Bool}
    {ids : List String} (h : extractAllIdentifiers d ic = Except.ok ids) :
    ids.Nodup ∧ ∀ x ∈ keysOf d, x ∈ ids := by
  unfold extractAllIdentifiers at h
  split at h
  · injection h with h2
    subst h2
    refine ⟨List.nodup_dedup _, ?_⟩
    intro x hx
    simp [candidateList, List.mem_dedup, hx]
  · cases h

theorem normTriples_ok (ls : List Link) :
    normTriples (Except.ok ls) =
      Except.ok (↑(ls.map normLink) : Multiset (ℕ × ℕ × ℚ)) := rfl

end Net

/-! ### Concrete instances used by counterexamples and witnesses -/

/-- Fetch oracle of concrete scenario 1: `x` references `{a, b}`, `y`
references `{a, c}`. -/
def oracleScn1 : String → Ana.FetchResult := fun s =>
  if s = "x" then ⟨some ["a", "b"], none⟩
  else if s = "y" then ⟨some ["a", "c"], none⟩
  else ⟨none, none⟩

/-- A one-seed fetch oracle: `x` references `{a}` and is cited by nobody. -/
def oracleOne : String → Ana.FetchResult := fun s =>
  if s = "x" then ⟨some ["a"], some []⟩ else ⟨none, none⟩

/-! ### C6 -/

/-- C6: no result record of `run_analysis`, backward or forward, has a
novel identifier that is a member of the seed set. -/
theorem runAnalysis_novel_not_in_seeds (seeds : List String)
    (oracle : String → Ana.FetchResult) (n m : ℤ) (r : Ana.Rel)
    (hr : r ∈ (Ana.runAnalysis seeds oracle n m).backward ∨
      r ∈ (Ana.runAnalysis seeds oracle n m).forward) :
    r.1 ∉ seeds := by
  by_cases hc : 0 < n ∨ 0 < m
  · rcases hr with h | h
    · rw [Ana.runAnalysis_backward_of_pos seeds oracle n m hc] at h
      exact Ana.novelCandidates_not_seed (Ana.mem_directionResults h).1
    · rw [Ana.runAnalysis_forward_of_pos seeds oracle n m hc] at h
      exact Ana.novelCandidates_not_seed (Ana.mem_directionResults h).1
  · push_neg at hc
    rw [Ana.runAnalysis_skip hc.1 hc.2] at hr
    rcases hr with h | h <;> exact absurd h (List.not_mem_nil r)

/-- C6 witness: the exclusion theorem applied to a concrete run that does
produce a backward record. -/
theorem runAnalysis_novel_not_in_seeds_witness : ("a" : String) ∉ ["x"] :=
  runAnalysis_novel_not_in_seeds ["x"] oracleOne 1 1 ("a", "x")
    (Or.inl (by decide))

/-! ### C7 -/

/-- C7: with every seed's reference fetch succeeding and a positive
backward threshold, the backward records whose novel identifier is a given
non-seed `d` are exactly one record per seed whose reference list contains
`d` when the number of such seeds reaches the threshold, and none
otherwise; in particular, on seeds `{x, y}` with `x` referencing `{a, b}`,
`y` referencing `{a, c}` and `N = 2`, the backward records are exactly
`[(a, x), (a, y)]`. -/
theorem runAnalysis_backward_tally :
    (∀ (seeds : List String) (oracle : String → Ana.FetchResult)
      (rs : String → List String) (n m : ℤ),
      seeds.Nodup → 1 ≤ n →
      (∀ s ∈ seeds, (oracle s).refs = some (rs s)) →
      ∀ d ∉ seeds,
      (Ana.runAnalysis seeds oracle n m).backward.filter (fun r => r.1 = d) =
        if n ≤ ((seeds.filter fun s => d ∈ rs s).length : ℤ) then
          (seeds.filter fun s => d ∈ rs s).map fun s => (d, s)
        else []) ∧
    (Ana.runAnalysis ["x", "y"] oracleScn1 2 0).backward =
      [("a", "x"), ("a", "y")] := by
  constructor
  · intro seeds oracle rs n m hnd hn hf d hd
    have hb : (0 : ℤ) < n := hn
    rw [Ana.runAnalysis_backward_of_pos seeds oracle n m (Or.inl hb)]
    have hfr : ∀ s ∈ seeds,
        (Ana.fetchPair oracle (decide (0 < n)) (decide (0 < m)) s).1 =
          some (rs s) := by
      intro s hs
      rw [Ana.fetchPair_fst, if_pos (decide_eq_true hb), hf s hs]
    have hc : Ana.contributors
        (fun s => (Ana.fetchPair oracle (decide (0 < n)) (decide (0 < m)) s).1)
        seeds d = seeds.filter fun s => d ∈ rs s := by
      unfold Ana.contributors
      apply List.filter_congr
      intro s hs
      simp only [hfr s hs]
    rw [Ana.directionResults_filter_key _ seeds n hn d hd, hc]
  · decide

/-- C7 witness: the tally characterization applied at the concrete
scenario, novel identifier `a`. -/
theorem runAnalysis_backward_tally_witness :
    (Ana.runAnalysis ["x", "y"] oracleScn1 2 0).backward.filter
        (fun r => r.1 = "a") =
      if (2 : ℤ) ≤ ((["x", "y"].filter fun s =>
          "a" ∈ (if s = "x" then ["a", "b"]
            else if s = "y" then ["a", "c"] else [])).length : ℤ) then
        (["x", "y"].filter fun s =>
          "a" ∈ (if s = "x" then ["a", "b"]
            else if s = "y" then ["a", "c"] else [])).map fun s => ("a", s)
      else [] :=
  runAnalysis_backward_tally.1 ["x", "y"] oracleScn1
    (fun s => if s = "x" then ["a", "b"]
      else if s = "y" then ["a", "c"] else [])
    2 0 (by decide) (by decide) (by decide) "a" (by decide)

/-! ### C8 -/

/-- C8 counterexample: raising the backward threshold from 0 to 1 on a
fixed seed set and fixed fetched data strictly increases the number of
distinct novel identifiers returned (from 0, because `N = 0` skips backward
analysis, to 1), so "increasing `minBackwardN` never increases the number
of distinct novel identifiers" fails as stated. -/
theorem backward_threshold_monotonicity_cex :
    ((Ana.runAnalysis ["x"] oracleOne 0 1).backward.map
        Prod.fst).toFinset.card <
      ((Ana.runAnalysis ["x"] oracleOne 1 1).backward.map
        Prod.fst).toFinset.card := by
  decide

/-- C8 (amended): over positive thresholds, increasing `minBackwardN`
(resp. `minForwardM`) never increases the number of distinct novel
identifiers of the corresponding direction; and a zero threshold skips that
direction entirely, yielding an empty relation list. -/
theorem backward_threshold_monotonicity_amended :
    (∀ (seeds : List String) (oracle : String → Ana.FetchResult) (n n2 m : ℤ),
      1 ≤ n → n ≤ n2 →
      ((Ana.runAnalysis seeds oracle n2 m).backward.map
          Prod.fst).toFinset.card ≤
        ((Ana.runAnalysis seeds oracle n m).backward.map
          Prod.fst).toFinset.card) ∧
    (∀ (seeds : List String) (oracle : String → Ana.FetchResult) (n m m2 : ℤ),
      1 ≤ m → m ≤ m2 →
      ((Ana.runAnalysis seeds oracle n m2).forward.map
          Prod.fst).toFinset.card ≤
        ((Ana.runAnalysis seeds oracle n m).forward.map
          Prod.fst).toFinset.card) ∧
    (∀ (seeds : List String) (oracle : String → Ana.FetchResult) (m : ℤ),
      (Ana.runAnalysis seeds oracle 0 m).backward = []) ∧
    (∀ (seeds : List String) (oracle : String → Ana.FetchResult) (n : ℤ),
      (Ana.runAnalysis seeds oracle n 0).forward = []) := by
  refine ⟨?_, ?_, ?_, ?_⟩
  · intro seeds oracle n n2 m hn hn2
    have h1 : (0 : ℤ) < n := hn
    have h2 : (0 : ℤ) < n2 := by omega
    rw [Ana.runAnalysis_backward_of_pos seeds oracle n m (Or.inl h1),
      Ana.runAnalysis_backward_of_pos seeds oracle n2 m (Or.inl h2)]
    have hfe : (fun s =>
        (Ana.fetchPair oracle (decide (0 < n2)) (decide (0 < m)) s).1) =
        (fun s =>
          (Ana.fetchPair oracle (decide (0 < n)) (decide (0 < m)) s).1) := by
      funext s
      rw [decide_eq_true h1, decide_eq_true h2]
    rw [hfe]
    apply Finset.card_le_card
    intro x hx
    rw [List.mem_toFinset, List.mem_map] at hx ⊢
    obtain ⟨r, hr, rfl⟩ := hx
    exact ⟨r, Ana.directionResults_subset_of_le h1 hn2 r hr, rfl⟩
  · intro seeds oracle n m m2 hm hm2
    have h1 : (0 : ℤ) < m := hm
    have h2 : (0 : ℤ) < m2 := by omega
    rw [Ana.runAnalysis_forward_of_pos seeds oracle n m (Or.inr h1),
      Ana.runAnalysis_forward_of_pos seeds oracle n m2 (Or.inr h2)]
    have hfe : (fun s =>
        (Ana.fetchPair oracle (decide (0 < n)) (decide (0 < m2)) s).2) =
        (fun s =>
          (Ana.fetchPair oracle (decide (0 < n)) (decide (0 < m)) s).2) := by
      funext s
      rw [decide_eq_true h1, decide_eq_true h2]
    rw [hfe]
    apply Finset.card_le_card
    intro x hx
    rw [List.mem_toFinset, List.mem_map] at hx ⊢
    obtain ⟨r, hr, rfl⟩ := hx
    exact ⟨r, Ana.directionResults_subset_of_le h1 hm2 r hr, rfl⟩
  · intro seeds oracle m
    by_cases hm : 0 < m
    · rw [Ana.runAnalysis_backward_of_pos seeds oracle 0 m (Or.inr hm)]
      simp [Ana.directionResults]
    · rw [Ana.runAnalysis_skip le_rfl (not_lt.1 hm)]
  · intro seeds oracle n
    by_cases hn : 0 < n
    · rw [Ana.runAnalysis_forward_of_pos seeds oracle n 0 (Or.inl hn)]
      simp [Ana.directionResults]
    · rw [Ana.runAnalysis_skip (not_lt.1 hn) le_rfl]

/-- C8 witness: the amended monotonicity applied at a concrete run with
thresholds 1 and 2. -/
theorem backward_threshold_monotonicity_amended_witness :
    ((Ana.runAnalysis ["x"] oracleOne 2 1).backward.map
        Prod.fst).toFinset.card ≤
      ((Ana.runAnalysis ["x"] oracleOne 1 1).backward.map
        Prod.fst).toFinset.card :=
  backward_threshold_monotonicity_amended.1 ["x"] oracleOne 1 2 1
    (by decide) (by decide)

/-- A raw data map with one entry whose two direction fields are `null`
(the shape the analyzer writes after a failed fetch). -/
def dNull : RawData := [("10.1000/x", ⟨RawField.null, RawField.null⟩)]

/-- A raw data map whose keys are not in lexicographic order: `b` before
`a`, both referencing `r`. -/
def dOrd : RawData :=
  [("b", ⟨RawField.val ["r"], RawField.absent⟩),
   ("a", ⟨RawField.val ["r"], RawField.absent⟩)]

/-- A raw data map where `a` and `b` are both cited by the external paper
`z` and neither has a references entry. -/
def dCoc : RawData :=
  [("a", ⟨RawField.absent, RawField.val ["z"]⟩),
   ("b", ⟨RawField.absent, RawField.val ["z"]⟩)]

/-! ### C1 -/

/-- C1: evaluating the network generator on a raw data map holding a
`null` direction value: candidate-identifier extraction raises (models
`set.update(None)` raising `TypeError` in `_extract_all_identifiers`), and
therefore every mode of `generate_network` fails on such input instead of
treating the entry as contributing strength 0. -/
theorem generateNetworkLinks_error_on_null_fields :
    Net.extractAllIdentifiers dNull false = Except.error () ∧
    Net.generateNetworkLinks dNull Net.LinkingMode.bibliographicCoupling 1
      none false (1/2) = Except.error () ∧
    Net.generateNetworkLinks dNull Net.LinkingMode.coCitation 1
      none false (1/2) = Except.error () ∧
    Net.generateNetworkLinks dNull Net.LinkingMode.amsler 1
      none false (1/2) = Except.error () := by
  refine ⟨by decide, by decide, by decide, by decide⟩

/-! ### C2 -/

/-- C2 counterexample: a network whose raw-data keys are not in
lexicographic order produces a bibliographic-coupling link with
`source_node_id = 1 > target_node_id = 0`, so
`source_node_id < target_node_id` fails as stated (the pairwise scan runs
in key order while node ids are assigned in sorted order). -/
theorem network_links_source_lt_target_cex :
    Net.generateNetworkLinks dOrd Net.LinkingMode.bibliographicCoupling 1
      none false 0 = Except.ok [⟨1, 0, 1⟩] ∧ ¬((1 : ℕ) < 0) :=
  ⟨by decide, by decide⟩

/-- C2 (amended): in every mode and configuration, every emitted link of
`generate_network` has two distinct endpoint node ids (no self-links) and
no unordered pair of node ids appears in more than one link; the stronger
`source_node_id < target_node_id` holds only when the raw-data key order
agrees with the sorted node order. -/
theorem network_links_distinct_pairs (d : RawData) (mode : Net.LinkingMode)
    (minS : ℤ) (maxN : Option ℕ) (ic : Bool) (lam : ℚ)
    (links : List Net.Link) (hk : (keysOf d).Nodup)
    (hok : Net.generateNetworkLinks d mode minS maxN ic lam =
      Except.ok links) :
    (∀ l ∈ links, l.source_id ≠ l.target_id) ∧
    (links.map fun l =>
      (min l.source_id l.target_id, max l.source_id l.target_id)).Nodup := by
  obtain ⟨ids0, hex, hmode⟩ := Net.generateNetworkLinks_ok hok
  cases mode with
  | bibliographicCoupling =>
    have hKnd : ((Net.refEntries d).map Prod.fst).Nodup :=
      hk.sublist (Net.refEntries_fst_sublist d)
    rw [Net.bcLinks_ok hmode]
    exact ⟨Net.pairScan_no_self hKnd, Net.pairScan_nodup_pairs hKnd⟩
  | coCitation =>
    have hKnd : ((Net.ccEntries d (Net.truncateIds d maxN ids0) ic).map
        Prod.fst).Nodup := by
      rw [Net.ccEntries_fst]
      exact hk.sublist (Net.citeEntries_fst_sublist d)
    rw [Net.ccLinks_ok hmode]
    exact ⟨Net.pairScan_no_self hKnd, Net.pairScan_nodup_pairs hKnd⟩
  | amsler =>
    have hKnd : (Net.amslerIds d).Nodup := Net.amslerIds_nodup hk
    rw [Net.amslerLinks_ok hmode]
    exact ⟨Net.pairScan_no_self hKnd, Net.pairScan_nodup_pairs hKnd⟩

/-- C2 witness: the amended invariant applied to the concrete network of
the counterexample input. -/
theorem network_links_distinct_pairs_witness :
    (∀ l ∈ [(⟨1, 0, 1⟩ : Net.Link)], l.source_id ≠ l.target_id) ∧
    ([(⟨1, 0, 1⟩ : Net.Link)].map fun l =>
      (min l.source_id l.target_id, max l.source_id l.target_id)).Nodup :=
  network_links_distinct_pairs dOrd Net.LinkingMode.bibliographicCoupling 1
    none false 0 [⟨1, 0, 1⟩] (by decide) (by decide)

/-! ### C9 -/

/-- C9: when `max_nodes` is set (positive) and the candidate identifier set
exceeds it, the truncated node set is duplicate-free, has exactly
`max_nodes` elements drawn from the candidates; when the seed (raw-data
key) count is within `max_nodes`, every seed is retained; when the seed
count alone exceeds `max_nodes`, the result consists of seeds only,
truncated to exactly `max_nodes`. -/
theorem maxNodes_truncation (d : RawData) (ic : Bool) (ids : List String)
    (n : ℕ) (hex : Net.extractAllIdentifiers d ic = Except.ok ids)
    (hk : (keysOf d).Nodup) (hn : 0 < n) (hx : n < ids.length) :
    (Net.truncateIds d (some n) ids).Nodup ∧
    (Net.truncateIds d (some n) ids).length = n ∧
    (∀ x ∈ Net.truncateIds d (some n) ids, x ∈ ids) ∧
    ((keysOf d).length ≤ n →
      ∀ x ∈ keysOf d, x ∈ Net.truncateIds d (some n) ids) ∧
    (n < (keysOf d).length →
      ∀ x ∈ Net.truncateIds d (some n) ids, x ∈ keysOf d) := by
  obtain ⟨hnd, hsub⟩ := Net.extractAllIdentifiers_ok_nodup hex
  have hT : Net.truncateIds d (some n) ids =
      if (keysOf d).length < n then
        keysOf d ++ (ids.filter fun x => x ∉ keysOf d).take
          (n - (keysOf d).length)
      else (keysOf d).take n := by
    simp only [Net.truncateIds]
    rw [if_pos (show n ≠ 0 ∧ n < ids.length from
      ⟨Nat.pos_iff_ne_zero.1 hn, hx⟩)]
  rw [hT]
  by_cases hlt : (keysOf d).length < n
  · rw [if_pos hlt]
    have hFnd : (ids.filter fun x => x ∉ keysOf d).Nodup := hnd.filter _
    have hFsub : ∀ x ∈ ids.filter fun x => x ∉ keysOf d, x ∈ ids :=
      fun x hx2 => (List.mem_filter.1 hx2).1
    have hFlen : n - (keysOf d).length ≤
        (ids.filter fun x => x ∉ keysOf d).length := by
      have hsplit := List.length_eq_length_filter_add
        (l := ids) (fun x => decide (x ∉ keysOf d))
      have hrest : (ids.filter fun x => !(decide (x ∉ keysOf d))).length ≤
          (keysOf d).length := by
        have hndr : (ids.filter fun x => !(decide (x ∉ keysOf d))).Nodup :=
          hnd.filter _
        rw [← List.toFinset_card_of_nodup hndr]
        calc (ids.filter fun x => !(decide (x ∉ keysOf d))).toFinset.card
            ≤ (keysOf d).toFinset.card := by
              apply Finset.card_le_card
              intro x hx2
              rw [List.mem_toFinset, List.mem_filter] at hx2
              rw [List.mem_toFinset]
              simpa using hx2.2
          _ ≤ (keysOf d).length := List.toFinset_card_le _
      omega
    refine ⟨?_, ?_, ?_, ?_, ?_⟩
    · rw [List.nodup_append]
      refine ⟨hk, (hFnd.sublist (List.take_sublist _ _) : _), ?_⟩
      intro x hx2 hx3
      have := (List.mem_filter.1
        ((List.take_sublist _ _).mem hx3)).2
      simp only [decide_eq_true_eq] at this
      exact this hx2
    · rw [List.length_append, List.length_take,
        Nat.min_eq_left hFlen]
      omega
    · intro x hx2
      rcases List.mem_append.1 hx2 with h | h
      · exact hsub x h
      · exact hFsub x ((List.take_sublist _ _).mem h)
    · intro _ x hx2
      exact List.mem_append_left _ hx2
    · intro hgt
      omega
  · rw [if_neg hlt]
    have hTk : ((keysOf d).take n).Nodup :=
      hk.sublist (List.take_sublist _ _)
    refine ⟨hTk, ?_, ?_, ?_, ?_⟩
    · rw [List.length_take, Nat.min_eq_left (by omega)]
    · intro x hx2
      exact hsub x ((List.take_sublist _ _).mem hx2)
    · intro hle x hx2
      have hEq : (keysOf d).take n = keysOf d :=
        List.take_of_length_le hle
      rw [hEq]
      exact hx2
    · intro _ x hx2
      exact (List.take_sublist _ _).mem hx2

/-- C9 witness: the truncation theorem applied at a concrete input with
three candidates, two seeds and `max_nodes = 2`. -/
theorem maxNodes_truncation_witness :
    (Net.truncateIds dOrd (some 2) ["b", "a", "r"]).Nodup ∧
    (Net.truncateIds dOrd (some 2) ["b", "a", "r"]).length = 2 ∧
    (∀ x ∈ Net.truncateIds dOrd (some 2) ["b", "a", "r"],
      x ∈ ["b", "a", "r"]) ∧
    ((keysOf dOrd).length ≤ 2 →
      ∀ x ∈ keysOf dOrd, x ∈ Net.truncateIds dOrd (some 2) ["b", "a", "r"]) ∧
    (2 < (keysOf dOrd).length →
      ∀ x ∈ Net.truncateIds dOrd (some 2) ["b", "a", "r"], x ∈ keysOf dOrd) :=
  maxNodes_truncation dOrd false ["b", "a", "r"] 2 (by decide) (by decide)
    (by decide) (by decide)

/-! ### C3 -/

/-- C3 counterexample: with `includeCociting = false` and
`amslerLambda = 0`, Amsler mode emits a link between `a` and `b` (it always
intersects the full citation lists) while co-citation mode emits no link
(it first restricts citation sets to the node set, which excludes the
external citer `z`), so the `λ = 0` boundary does not reproduce the
co-citation triples as stated. -/
theorem amsler_boundary_cex :
    Net.generateNetworkLinks dCoc Net.LinkingMode.amsler 1 none false 0 =
      Except.ok [⟨0, 1, 1⟩] ∧
    Net.generateNetworkLinks dCoc Net.LinkingMode.coCitation 1 none false 0 =
      Except.ok [] := by
  constructor
  · simp +decide [Net.generateNetworkLinks, Net.extractAllIdentifiers,
      Net.candidateList, Net.amslerLinks, Net.amslerIds, Net.refEntries,
      Net.citeEntries, Net.refsOk, Net.citesOk, Net.truncateIds, keysOf,
      Net.refMentions, Net.citeMentions, Net.listPairs, Net.mkLink,
      Net.nodeId, Net.sortedIds, Net.insertSorted, Net.strLeb,
      Net.charListLe, Net.lookupSet]
  · decide

/-- C3 (amended): on well-formed raw data (no `null` direction values) and
`minStrength ≥ 1`, Amsler mode with `λ = 1` emits exactly the
bibliographic-coupling links and Amsler mode with `λ = 0` and
`includeCociting = true` emits exactly the co-citation links, where link
lists are compared as multisets of undirected `(node, node, strength)`
triples; with `includeCociting = false` the `λ = 0` boundary fails (the
counterexample), because Amsler always uses full citation lists while
co-citation mode restricts them to the node set. -/
theorem amsler_boundary_amended (d : RawData) (minS : ℤ)
    (hwf : WellFormed d) (hk : (keysOf d).Nodup) (hmin : 1 ≤ minS) :
    (∀ (ic : Bool) (lam : ℚ),
      Net.normTriples
        (Net.generateNetworkLinks d Net.LinkingMode.amsler minS none ic 1) =
      Net.normTriples
        (Net.generateNetworkLinks d Net.LinkingMode.bibliographicCoupling
          minS none ic lam)) ∧
    (∀ lam2 : ℚ,
      Net.normTriples
        (Net.generateNetworkLinks d Net.LinkingMode.amsler minS none true 0) =
      Net.normTriples
        (Net.generateNetworkLinks d Net.LinkingMode.coCitation
          minS none true lam2)) := by
  have hposQ : (0 : ℚ) < (minS : ℚ) := by
    exact_mod_cast (by omega : (0 : ℤ) < minS)
  constructor
  · intro ic lam
    rw [Net.generateNetworkLinks_amsler_of_wf hwf minS ic 1,
      Net.generateNetworkLinks_bc_of_wf hwf minS ic lam,
      Net.amslerLinks_of_wf hwf (Net.candidateList d ic) minS 1,
      Net.bcLinks_of_wf hwf (Net.candidateList d ic) minS,
      Net.normTriples_ok, Net.normTriples_ok]
    congr 1
    rw [List.map_filterMap, List.map_filterMap]
    have hst : (fun p q =>
        (1 : ℚ) * ((Net.lookupSet (Net.refEntries d) p ∩
          Net.lookupSet (Net.refEntries d) q).card : ℚ) +
        (1 - 1) * ((Net.lookupSet (Net.citeEntries d) p ∩
          Net.lookupSet (Net.citeEntries d) q).card : ℚ)) =
        fun p q => ((Net.lookupSet (Net.refEntries d) p ∩
          Net.lookupSet (Net.refEntries d) q).card : ℚ) := by
      funext p q
      ring
    rw [hst]
    simp only [Net.amslerIds]
    apply congrArg
    apply Net.filterMap_listPairs_append
    intro pq hpq
    have hnone : Net.mkLink (Net.candidateList d ic)
        (fun p q => ((Net.lookupSet (Net.refEntries d) p ∩
          Net.lookupSet (Net.refEntries d) q).card : ℚ))
        (minS : ℚ) pq = none := by
      apply Net.mkLink_eq_none_of_lt
      rcases hpq with h | h
      · have hnr : pq.1 ∉ (Net.refEntries d).map Prod.fst := by
          have := (List.mem_filter.1 h).2
          simpa using this
        rw [Net.lookupSet_eq_empty hnr, Finset.empty_inter]
        simpa using hposQ
      · have hnr : pq.2 ∉ (Net.refEntries d).map Prod.fst := by
          have := (List.mem_filter.1 h).2
          simpa using this
        rw [Net.lookupSet_eq_empty hnr, Finset.inter_empty]
        simpa using hposQ
    rw [hnone]
    rfl
  · intro lam2
    rw [Net.generateNetworkLinks_amsler_of_wf hwf minS true 0,
      Net.generateNetworkLinks_cc_of_wf hwf minS true lam2,
      Net.amslerLinks_of_wf hwf (Net.candidateList d true) minS 0,
      Net.ccLinks_of_wf hwf (Net.candidateList d true) minS true,
      Net.normTriples_ok, Net.normTriples_ok]
    congr 1
    rw [List.map_filterMap, List.map_filterMap]
    rw [show Net.ccEntries d (Net.candidateList d true) true = Net.citeEntries d
      from rfl]
    have hst : (fun p q =>
        (0 : ℚ) * ((Net.lookupSet (Net.refEntries d) p ∩
          Net.lookupSet (Net.refEntries d) q).card : ℚ) +
        (1 - 0) * ((Net.lookupSet (Net.citeEntries d) p ∩
          Net.lookupSet (Net.citeEntries d) q).card : ℚ)) =
        fun p q => ((Net.lookupSet (Net.citeEntries d) p ∩
          Net.lookupSet (Net.citeEntries d) q).card : ℚ) := by
      funext p q
      ring
    rw [hst]
    rw [Multiset.coe_eq_coe]
    have hsym : ∀ p q,
        (Net.mkLink (Net.candidateList d true)
          (fun p q => ((Net.lookupSet (Net.citeEntries d) p ∩
            Net.lookupSet (Net.citeEntries d) q).card : ℚ))
          (minS : ℚ) (p, q)).map Net.normLink =
        (Net.mkLink (Net.candidateList d true)
          (fun p q => ((Net.lookupSet (Net.citeEntries d) p ∩
            Net.lookupSet (Net.citeEntries d) q).card : ℚ))
          (minS : ℚ) (q, p)).map Net.normLink := by
      intro p q
      apply Net.mkLink_norm_symm
      intro p2 q2
      rw [Finset.inter_comm]
    have hrk : ((Net.refEntries d).map Prod.fst).Nodup :=
      hk.sublist (Net.refEntries_fst_sublist d)
    have hck : ((Net.citeEntries d).map Prod.fst).Nodup :=
      hk.sublist (Net.citeEntries_fst_sublist d)
    have hnd2 : ((Net.citeEntries d).map Prod.fst ++
        ((Net.refEntries d).map Prod.fst).filter
          (fun k => k ∉ (Net.citeEntries d).map Prod.fst)).Nodup := by
      rw [List.nodup_append]
      refine ⟨hck, hrk.filter _, ?_⟩
      intro x hx hx2
      have hmem := (List.mem_filter.1 hx2).2
      simp only [decide_eq_true_eq] at hmem
      exact hmem hx
    have hperm : (Net.amslerIds d).Perm
        ((Net.citeEntries d).map Prod.fst ++
          ((Net.refEntries d).map Prod.fst).filter
            (fun k => k ∉ (Net.citeEntries d).map Prod.fst)) := by
      apply (List.perm_ext_iff_of_nodup (Net.amslerIds_nodup hk) hnd2).2
      intro a
      simp only [Net.amslerIds, List.mem_append, List.mem_filter,
        decide_eq_true_eq]
      by_cases h1 : a ∈ (Net.refEntries d).map Prod.fst <;>
        by_cases h2 : a ∈ (Net.citeEntries d).map Prod.fst <;>
        simp [h1, h2]
    have h1 := @Net.filterMap_listPairs_perm String (ℕ × ℕ × ℚ)
      (fun pq => (Net.mkLink (Net.candidateList d true)
        (fun p q => ((Net.lookupSet (Net.citeEntries d) p ∩
          Net.lookupSet (Net.citeEntries d) q).card : ℚ))
        (minS : ℚ) pq).map Net.normLink)
      hsym _ _ hperm
    have hdropEq := Net.filterMap_listPairs_append
      (fun pq => (Net.mkLink (Net.candidateList d true)
        (fun p q => ((Net.lookupSet (Net.citeEntries d) p ∩
          Net.lookupSet (Net.citeEntries d) q).card : ℚ))
        (minS : ℚ) pq).map Net.normLink)
      ((Net.citeEntries d).map Prod.fst)
      (((Net.refEntries d).map Prod.fst).filter
        (fun k => k ∉ (Net.citeEntries d).map Prod.fst))
      (by
        intro pq hpq
        have hnone : Net.mkLink (Net.candidateList d true)
            (fun p q => ((Net.lookupSet (Net.citeEntries d) p ∩
              Net.lookupSet (Net.citeEntries d) q).card : ℚ))
            (minS : ℚ) pq = none := by
          apply Net.mkLink_eq_none_of_lt
          rcases hpq with h | h
          · have hnc : pq.1 ∉ (Net.citeEntries d).map Prod.fst := by
              have hmem := (List.mem_filter.1 h).2
              simpa using hmem
            rw [Net.lookupSet_eq_empty hnc, Finset.empty_inter]
            simpa using hposQ
          · have hnc : pq.2 ∉ (Net.citeEntries d).map Prod.fst := by
              have hmem := (List.mem_filter.1 h).2
              simpa using hmem
            rw [Net.lookupSet_eq_empty hnc, Finset.inter_empty]
            simpa using hposQ
        simp [hnone])
    rw [hdropEq] at h1
    exact h1

/-- C3 witness: the amended boundary equivalence applied at a concrete
well-formed input. -/
theorem amsler_boundary_amended_witness :
    Net.normTriples
      (Net.generateNetworkLinks dCoc Net.LinkingMode.amsler 1 none true 1) =
    Net.normTriples
      (Net.generateNetworkLinks dCoc Net.LinkingMode.bibliographicCoupling
        1 none true (1/2)) :=
  (amsler_boundary_amended dCoc 1 (by decide) (by decide) (by decide)).1
    true (1/2)

/-! ### C4 -/

/-- C4: the merge-with-stats operation returns a list whose element set is
the union of the two providers' result sets, and its contribution
statistics are the cardinalities of the union, the intersection and the two
differences, with `overlap + unique_A + unique_B = total_unique`. -/
theorem mergeWithStats_correct (A B : List String) :
    (Merge.mergeWithStats A B).1.toFinset = A.toFinset ∪ B.toFinset ∧
    (Merge.mergeWithStats A B).2.totalUnique = (A.toFinset ∪ B.toFinset).card ∧
    (Merge.mergeWithStats A B).2.overlap = (A.toFinset ∩ B.toFinset).card ∧
    (Merge.mergeWithStats A B).2.openAlexUnique = (A.toFinset \ B.toFinset).card ∧
    (Merge.mergeWithStats A B).2.semanticScholarUnique = (B.toFinset \ A.toFinset).card ∧
    (Merge.mergeWithStats A B).2.overlap + (Merge.mergeWithStats A B).2.openAlexUnique +
      (Merge.mergeWithStats A B).2.semanticScholarUnique =
      (Merge.mergeWithStats A B).2.totalUnique := by
  refine ⟨?_, rfl, rfl, rfl, rfl, ?_⟩
  · show (A ++ B).dedup.toFinset = A.toFinset ∪ B.toFinset
    ext x
    simp [List.mem_dedup]
  · show (A.toFinset ∩ B.toFinset).card + (A.toFinset \ B.toFinset).card +
      (B.toFinset \ A.toFinset).card = (A.toFinset ∪ B.toFinset).card
    have h1 := Finset.card_inter_add_card_sdiff A.toFinset B.toFinset
    have h2 := Finset.card_sdiff_add_card B.toFinset A.toFinset
    rw [Finset.union_comm] at h2
    omega

/-! ### C5 -/

/-- C5: `run_analysis` with both thresholds zero returns empty summaries,
empty backward and forward relations and an empty raw-data map, and
attempts no fetch (the fetch trace is empty); the rejection happens by
returning normally, so it is fatal only to that invocation. -/
theorem runAnalysis_both_zero (seeds : List String)
    (oracle : String → Ana.FetchResult) :
    Ana.runAnalysis seeds oracle 0 0 =
      { summaries := [], backward := [], forward := [], rawData := [],
        fetched := [] } := by
  simp [Ana.runAnalysis]

/-! ### C10 -/

/-- C10: the analyzer constructor rejects a non-set `initial_dois`, rejects
a non-`None` non-set `initial_mag_ids`, and on two sets constructs an
analyzer whose working identifier set is exactly their union. -/
theorem analyzerInit_validation (dois magIds : Ana.PyVal) :
    ((∀ s, dois ≠ Ana.PyVal.pySet s) →
      ∃ msg, Ana.analyzerInit dois magIds = Except.error msg) ∧
    ((magIds ≠ Ana.PyVal.pyNone ∧ ∀ s, magIds ≠ Ana.PyVal.pySet s) →
      ∃ msg, Ana.analyzerInit dois magIds = Except.error msg) ∧
    (∀ ds ms, Ana.analyzerInit (Ana.PyVal.pySet ds) (Ana.PyVal.pySet ms) =
      Except.ok (ds ∪ ms)) := by
  refine ⟨?_, ?_, fun ds ms => rfl⟩
  · intro h
    cases dois with
    | pySet s => exact absurd rfl (h s)
    | pyList l => exact ⟨_, rfl⟩
    | pyNone => exact ⟨_, rfl⟩
    | pyOther => exact ⟨_, rfl⟩
  · rintro ⟨hn, hs⟩
    cases dois with
    | pySet s =>
      cases magIds with
      | pySet m => exact absurd rfl (hs m)
      | pyList l => exact ⟨_, rfl⟩
      | pyNone => exact absurd rfl hn
      | pyOther => exact ⟨_, rfl⟩
    | pyList l => exact ⟨_, rfl⟩
    | pyNone => exact ⟨_, rfl⟩
    | pyOther => exact ⟨_, rfl⟩

/-- C10 witness: the validation theorem applied at concrete inputs — a
non-set `initial_dois` is rejected, and two concrete sets yield their
union. -/
theorem analyzerInit_validation_witness :
    (∃ msg, Ana.analyzerInit Ana.PyVal.pyOther Ana.PyVal.pyNone =
      Except.error msg) ∧
    Ana.analyzerInit (Ana.PyVal.pySet {"10.1000/a"})
      (Ana.PyVal.pySet {"123456"}) =
      Except.ok ({"10.1000/a"} ∪ {"123456"}) :=
  ⟨(analyzerInit_validation Ana.PyVal.pyOther Ana.PyVal.pyNone).1
      (fun s h => by cases h),
   (analyzerInit_validation Ana.PyVal.pyOther Ana.PyVal.pyNone).2.2
      {"10.1000/a"} {"123456"}⟩

end CCA
